import Mathlib

/-!
Verification of the streaming tool-call orchestration loop of
`src/backend/researcher.py` (`LiteLLMClient.chat_stream`).

The embedding translates the Python source into pure Lean definitions:

* the delta accumulator (researcher.py lines 125-159) becomes a fold over
  `StreamChunk`s acting on an `AccumState`;
* the tool executor (lines 199-266) becomes `executeCall`;
* the orchestration `while True` loop (lines 109-277) becomes `runTurns` /
  `chat_stream`, driven by a list of `ProviderTurn`s — each turn is the
  provider's answer to one `acompletion` request (either an exception or a
  finite chunk stream);
* external library and network functions that the loop merely calls —
  `json.loads`, `json.dumps`, `search_wikipedia`, `call_final_result_tool` —
  are abstracted as parameters of a `ToolEnv`; the SSE wire encoding
  (`f"data: {json.dumps(...)}\n\n"`) is abstracted by letting events carry
  their payloads structurally.
-/

namespace Researcher

/-- One entry of `tool_calls_data` (researcher.py lines 137-143): the dict
`{"id": ..., "type": ..., "function": {"name": ..., "arguments": ...}}`,
with the `function` sub-dict flattened into the two fields it holds. -/
structure ToolCallData where
  id : String
  type : String
  name : String
  arguments : String
deriving DecidableEq, Repr

/-- One provider tool-call delta (`tool_call_delta`, lines 134-159).
Optional fields model attributes that may be `None`; the Python code guards
each field with truthiness, so `none` and `some ""` behave identically.
`fname`/`fargs` are `tool_call_delta.function.name` / `.function.arguments`
(`none` also covers `tool_call_delta.function` itself being `None`). -/
structure ToolCallDelta where
  index : Nat
  id : Option String
  type : Option String
  fname : Option String
  fargs : Option String
deriving DecidableEq, Repr

/-- Python truthiness of an optional string: `None` and `""` are falsy. -/
def truthy : Option String → Bool
  | none => false
  | some s => !s.isEmpty

/-- The placeholder appended by the growth loop (lines 137-143):
`{"id": "", "type": "function", "function": {"name": "", "arguments": ""}}`. -/
def emptyToolCall : ToolCallData :=
  { id := "", type := "function", name := "", arguments := "" }

instance : Inhabited ToolCallData := ⟨emptyToolCall⟩

/-- `while len(tool_calls_data) <= index: tool_calls_data.append(placeholder)`
(lines 136-143): pad the list with placeholders until index `i` exists. -/
def growTo (l : List ToolCallData) (i : Nat) : List ToolCallData :=
  l ++ List.replicate (i + 1 - l.length) emptyToolCall

/-- In-place update of the list entry at position `n` (the effect of the
`tool_calls_data[index][...] = ...` statements). -/
def setAt : List ToolCallData → Nat → (ToolCallData → ToolCallData) → List ToolCallData
  | [], _, _ => []
  | x :: xs, 0, f => f x :: xs
  | x :: xs, n + 1, f => x :: setAt xs n f

/-- Read the entry at position `i`, defaulting to the placeholder. -/
def getAt (l : List ToolCallData) (i : Nat) : ToolCallData :=
  l.getD i emptyToolCall

/-- Lines 145-159: the field updates one delta applies to its record.
`id`, `type` and `name` are *assigned* (overwritten) whenever the delta
carries a truthy value; `arguments` is appended with `+=`. -/
def updateRecord (r : ToolCallData) (d : ToolCallDelta) : ToolCallData :=
  let r := if truthy d.id then { r with id := d.id.getD "" } else r
  let r := if truthy d.type then { r with type := d.type.getD "" } else r
  let r := if truthy d.fname then { r with name := d.fname.getD "" } else r
  if truthy d.fargs then { r with arguments := r.arguments ++ d.fargs.getD "" } else r

/-- Lines 135-159: process one `tool_call_delta` — grow the list up to the
delta's index, then update the record there. -/
def applyDelta (acc : List ToolCallData) (d : ToolCallDelta) : List ToolCallData :=
  setAt (growTo acc d.index) d.index (fun r => updateRecord r d)

/-- Fold a delta sequence into `tool_calls_data`, starting from the given
accumulator (the loop body applied in arrival order). -/
def foldDeltasFrom (acc : List ToolCallData) (ds : List ToolCallDelta) :
    List ToolCallData :=
  ds.foldl applyDelta acc

/-- Fold a delta sequence starting from the empty `tool_calls_data = []`. -/
def foldDeltas (ds : List ToolCallDelta) : List ToolCallData :=
  foldDeltasFrom [] ds

/-- Ordered concatenation of a list of strings. -/
def concatAll : List String → String
  | [] => ""
  | s :: l => s ++ concatAll l

/-- The argument fragments received for index `i`, in arrival order
(fragments carried by deltas addressed to `i`; absent fragments read `""`). -/
def argFragsAt (ds : List ToolCallDelta) (i : Nat) : List String :=
  (ds.filter (fun d => d.index == i)).map (fun d => d.fargs.getD "")

/-- The delta that "wins" for a per-index scalar field under the source's
assignment semantics: the **last** delta for index `i` whose field is
truthy (non-`None`, non-empty), if any. -/
def lastSupplied (ds : List ToolCallDelta) (i : Nat)
    (f : ToolCallDelta → Option String) : Option String :=
  (ds.reverse.find? (fun d => d.index == i && truthy (f d))).map (fun d => (f d).getD "")

/- ### Messages, events, and the orchestration loop -/

/-- A conversation message (`{role, content?, tool_calls?, tool_call_id?}`). -/
structure Message where
  role : String
  content : Option String
  tool_calls : Option (List ToolCallData)
  tool_call_id : Option String
deriving DecidableEq, Repr

/-- One chunk of the provider stream (`chunk.choices[0].delta`): optional
text content plus the (possibly empty) list of tool-call deltas. -/
structure StreamChunk where
  content : Option String
  tool_calls : List ToolCallDelta
deriving DecidableEq, Repr

/-- A consumer-facing event, one per `yield` of `chat_stream`. Events carry
their payloads structurally; the SSE text encoding
(`f"data: {json.dumps(...)}\n\n"`) applied by the source before yielding is
a presentation detail not modelled here. `tool_result` carries the
`tool_call_id`, the `content`, and whether the `'error': True` key is set. -/
inductive Event where
  | chunk (content : String)
  | tool_call (tc : ToolCallData)
  | tool_result (tool_call_id : String) (content : String) (error : Bool)
  | error (msg : String)
  | full_response (msgs : List Message)
deriving DecidableEq, Repr

/-- A Python exception: its class name (`type(e).__name__`) and `str(e)`. -/
structure PyExn where
  typeName : String
  msg : String
deriving DecidableEq, Repr

/-- The provider's behaviour for one `acompletion` request: either the call
or the stream iteration raises (caught at researcher.py line 270), or the
stream yields a finite sequence of chunks. -/
inductive ProviderTurn where
  | failure (e : PyExn)
  | stream (chunks : List StreamChunk)
deriving DecidableEq, Repr

/-- `local_tool_names = [tool["name"] for tool in self.local_tools]`
(researcher.py line 214): the registry holds the wikipedia tool and the
final-result tool, in constructor order (lines 45-48). -/
def localToolNames : List String := ["wikipedia_search", "final_result_tool"]

/-- External collaborators of the loop, abstracted: `Args` is the type of
decoded JSON objects; `decode` is `json.loads` on the accumulated argument
string (`none` = `json.JSONDecodeError`); `emptyArgs` is `{}`; `runTool`
is `await self._call_local_tool(name, args)` followed by
`json.dumps(ensure_serializable(result))` (`Except.error` = the invocation
raised); `systemPrompt` is `RESEARCH_AGENT_PROMPT`, whose Python value
interpolates the import-time date. -/
structure ToolEnv (Args : Type) where
  decode : String → Option Args
  emptyArgs : Args
  runTool : String → Args → Except PyExn String
  systemPrompt : String

/-- The text/record accumulator state of one STREAMING phase:
`full_response_text` and `tool_calls_data` (lines 121-122). -/
structure AccumState where
  text : String
  records : List ToolCallData
deriving DecidableEq, Repr

/-- Lines 125-159: consume one stream chunk — append truthy text content
(yielding a chunk event), then fold the chunk's tool-call deltas. -/
def procChunk (st : AccumState) (c : StreamChunk) : AccumState × List Event :=
  let (text, evs) :=
    if truthy c.content then
      (st.text ++ c.content.getD "", [Event.chunk (c.content.getD "")])
    else (st.text, [])
  (⟨text, foldDeltasFrom st.records c.tool_calls⟩, evs)

/-- The `async for chunk in stream` loop: process the chunks in order,
collecting emitted events. -/
def procChunks (st : AccumState) : List StreamChunk → AccumState × List Event
  | [] => (st, [])
  | c :: cs =>
    let (st', evs) := procChunk st c
    let (st'', evs') := procChunks st' cs
    (st'', evs ++ evs')

variable {Args : Type}

/-- `"\n[Error parsing tool arguments]: Invalid JSON: {arguments}\n"`
(line 208). -/
def parseErrMsg (arguments : String) : String :=
  "\n[Error parsing tool arguments]: Invalid JSON: " ++ arguments ++ "\n"

/-- `"Error executing tool '{tool_name}': {str(e)}"` (line 258). -/
def execErrContent (name cause : String) : String :=
  "Error executing tool '" ++ name ++ "': " ++ cause

/-- `"\n[Error calling tool {tool_name}]: {type(e).__name__}: {e}\n"`
(line 250). -/
def callErrMsg (name : String) (e : PyExn) : String :=
  "\n[Error calling tool " ++ name ++ "]: " ++ e.typeName ++ ": " ++ e.msg ++ "\n"

/-- Lines 212-266: the `try`/`except` around one tool invocation, given the
already-decoded arguments. Returns the events yielded and the tool-role
message appended to the histories. The unknown-tool branch models
`raise ValueError(f"Unknown tool: {tool_name}")` (line 222) caught by the
`except` at line 249. -/
def invokePhase (env : ToolEnv Args) (args : Args) (tc : ToolCallData) :
    List Event × Message :=
  if tc.name ∈ localToolNames then
    match env.runTool tc.name args with
    | Except.ok content =>
      ([Event.tool_result tc.id content false],
       { role := "tool", content := some content, tool_calls := none,
         tool_call_id := some tc.id })
    | Except.error e =>
      ([Event.error (callErrMsg tc.name e),
        Event.tool_result tc.id (execErrContent tc.name e.msg) true],
       { role := "tool", content := some (execErrContent tc.name e.msg),
         tool_calls := none, tool_call_id := some tc.id })
  else
    ([Event.error (callErrMsg tc.name ⟨"ValueError", "Unknown tool: " ++ tc.name⟩),
      Event.tool_result tc.id (execErrContent tc.name ("Unknown tool: " ++ tc.name)) true],
     { role := "tool",
       content := some (execErrContent tc.name ("Unknown tool: " ++ tc.name)),
       tool_calls := none, tool_call_id := some tc.id })

/-- Lines 200-266: execute one tool call: decode its accumulated argument
string with `json.loads` (decode failure yields one error event and falls
back to the empty argument set, lines 204-210), then run the invocation
phase. -/
def executeCall (env : ToolEnv Args) (tc : ToolCallData) : List Event × Message :=
  match env.decode tc.arguments with
  | some args => invokePhase env args tc
  | none =>
    let (evs, m) := invokePhase env env.emptyArgs tc
    (Event.error (parseErrMsg tc.arguments) :: evs, m)

/-- The `for tool_call in formatted_tool_calls` loop (lines 200-266):
execute the calls sequentially in list order, collecting the yielded
events and the appended tool-role messages. -/
def execAll (env : ToolEnv Args) : List ToolCallData → List Event × List Message
  | [] => ([], [])
  | tc :: tcs =>
    let (evs, m) := executeCall env tc
    let (evs', ms) := execAll env tcs
    (evs ++ evs', m :: ms)

/-- The mutable state of one `chat_stream` run: the caller's `chat_history`
argument (never written after the initial `chat_history.copy()`), the
working copy `chat_messages`, and `new_messages`. -/
structure LoopState where
  chat_history : List Message
  chat_messages : List Message
  new_messages : List Message
deriving DecidableEq, Repr

/-- Append a message to both histories (`new_messages.append(...)` followed
by `chat_messages.append(...)`). -/
def appendMsg (st : LoopState) (m : Message) : LoopState :=
  { st with chat_messages := st.chat_messages ++ [m],
            new_messages := st.new_messages ++ [m] }

/-- Append a list of messages to both histories, in order. -/
def appendMsgs (st : LoopState) (ms : List Message) : LoopState :=
  { st with chat_messages := st.chat_messages ++ ms,
            new_messages := st.new_messages ++ ms }

/-- Lines 97-107: copy the caller's history into `chat_messages` and insert
the system prompt at position 0 when no system-role message is present;
`new_messages` starts empty. -/
def initState (env : ToolEnv Args) (history : List Message) : LoopState :=
  let base :=
    if history.any (fun m => m.role == "system") then history
    else { role := "system", content := some env.systemPrompt,
           tool_calls := none, tool_call_id := none } :: history
  { chat_history := history, chat_messages := base, new_messages := [] }

/-- How one iteration of the `while True` loop ends: `next` re-enters the
loop (another provider request), `finished` is the `break` at line 185,
`fatal` is the `return` at line 274. -/
inductive Outcome where
  | next
  | finished
  | fatal
deriving DecidableEq, Repr

/-- `"\n[Error during API call]: {type(e).__name__}: {e}\n"` (line 271). -/
def apiErrMsg (e : PyExn) : String :=
  "\n[Error during API call]: " ++ e.typeName ++ ": " ++ e.msg ++ "\n"

/-- The assistant message constructed at stream end (lines 161-169):
content is the accumulated text; the `tool_calls` key is added only when
`tool_calls_data` is non-empty. -/
def assistantMsg (acc : AccumState) : Message :=
  { role := "assistant", content := some acc.text,
    tool_calls := if acc.records.isEmpty then none else some acc.records,
    tool_call_id := none }

/-- One iteration of the `while True` loop (lines 109-274): a provider
failure yields one error event and is fatal; otherwise consume the stream,
append the assistant message, and either finish (no tool calls: yield the
`full_response` of line 184 and break) or execute all tool calls and loop. -/
def stepTurn (env : ToolEnv Args) (st : LoopState) : ProviderTurn →
    List Event × LoopState × Outcome
  | ProviderTurn.failure e => ([Event.error (apiErrMsg e)], st, Outcome.fatal)
  | ProviderTurn.stream chunks =>
    let (acc, evs) := procChunks ⟨"", []⟩ chunks
    let announceEvs :=
      if acc.records.isEmpty then [] else acc.records.map Event.tool_call
    let st' := appendMsg st (assistantMsg acc)
    if acc.records.isEmpty then
      (evs ++ announceEvs ++ [Event.full_response st'.new_messages], st',
       Outcome.finished)
    else
      let (toolEvs, toolMsgs) := execAll env acc.records
      (evs ++ announceEvs ++ toolEvs, appendMsgs st' toolMsgs, Outcome.next)

/-- How a (truncated) run ended: `completed` via the `break`, `fatal` via
the `return`, or `outOfTurns` when the supplied provider behaviour list is
exhausted while the loop would have issued another request. -/
inductive RunEnd where
  | completed
  | fatal
  | outOfTurns
deriving DecidableEq, Repr

/-- The `while True` loop, driven by one `ProviderTurn` per iteration. -/
def runTurns (env : ToolEnv Args) (st : LoopState) :
    List ProviderTurn → List Event × LoopState × RunEnd
  | [] => ([], st, RunEnd.outOfTurns)
  | t :: ts =>
    match stepTurn env st t with
    | (evs, st', Outcome.finished) => (evs, st', RunEnd.completed)
    | (evs, st', Outcome.fatal) => (evs, st', RunEnd.fatal)
    | (evs, st', Outcome.next) =>
      let (evs', st'', e) := runTurns env st' ts
      (evs ++ evs', st'', e)

/-- `LiteLLMClient.chat_stream` (researcher.py lines 85-277): initialize the
histories, run the loop, and — when the loop exited through the `break` —
yield the trailing `full_response` of line 277 as well. -/
def chat_stream (env : ToolEnv Args) (history : List Message)
    (turns : List ProviderTurn) : List Event × LoopState × RunEnd :=
  let st := initState env history
  match runTurns env st turns with
  | (evs, st', RunEnd.completed) =>
    (evs ++ [Event.full_response st'.new_messages], st', RunEnd.completed)
  | r => r

/- ### Projections of event streams -/

/-- The payloads of the FinalResponse (`full_response`) events of a stream,
in emission order. -/
def fullResponses (evs : List Event) : List (List Message) :=
  evs.filterMap (fun e => match e with
    | Event.full_response ms => some ms
    | _ => none)

/-- The `(tool_call_id, content, error)` triples of the ToolResult events of
a stream, in emission order. -/
def toolResultsOf (evs : List Event) : List (String × String × Bool) :=
  evs.filterMap (fun e => match e with
    | Event.tool_result cid content err => some (cid, content, err)
    | _ => none)

/-- Whether an event is an Error event. -/
def isErrorEvent : Event → Bool
  | Event.error _ => true
  | _ => false

/-- Whether an event is a FinalResponse event. -/
def isFullResponseEvent : Event → Bool
  | Event.full_response _ => true
  | _ => false

/- ### Concrete inputs used by the closed witness theorems -/

/-- A trivial environment over `Unit` arguments: every argument string
decodes, every tool invocation succeeds with content `"ok"`. -/
def sampleEnv : ToolEnv Unit :=
  { decode := fun _ => some (), emptyArgs := (),
    runTool := fun _ _ => Except.ok "ok", systemPrompt := "prompt" }

/-- An environment whose decoder rejects every argument string, modelling
`json.loads` raising `JSONDecodeError`. -/
def sampleEnvBadJson : ToolEnv Unit :=
  { decode := fun _ => none, emptyArgs := (),
    runTool := fun _ _ => Except.ok "ok", systemPrompt := "prompt" }

/-- A sample user message. -/
def sampleUser : Message :=
  { role := "user", content := some "q", tool_calls := none, tool_call_id := none }

/-- A single provider turn answering with pure text, no tool calls. -/
def sampleTextTurns : List ProviderTurn :=
  [ProviderTurn.stream [⟨some "hi", []⟩]]

/-- A tool-call record naming a tool absent from the registry. -/
def sampleUnknownCall : ToolCallData :=
  { id := "call1", type := "function", name := "mystery_tool", arguments := "" }

/-- A tool-call record naming the wikipedia tool. -/
def sampleWikiCall : ToolCallData :=
  { id := "call2", type := "function", name := "wikipedia_search",
    arguments := "not-json" }

/-- A delta addressed to index 2 carrying an id and an argument fragment. -/
def sampleDeltaAt2 : ToolCallDelta :=
  { index := 2, id := some "c", type := none, fname := none, fargs := some "frag" }

/- ### Basic lemmas about the accumulator -/

theorem length_setAt (l : List ToolCallData) (n : Nat) (f : ToolCallData → ToolCallData) :
    (setAt l n f).length = l.length := by
  induction l generalizing n with
  | nil => rfl
  | cons x xs ih =>
    cases n with
    | zero => rfl
    | succ n => simp [setAt, ih]

theorem length_growTo (l : List ToolCallData) (i : Nat) :
    (growTo l i).length = max (i + 1) l.length := by
  simp [growTo]
  omega

theorem length_applyDelta (acc : List ToolCallData) (d : ToolCallDelta) :
    (applyDelta acc d).length = max (d.index + 1) acc.length := by
  simp [applyDelta, length_setAt, length_growTo]

theorem getAt_growTo (l : List ToolCallData) (i j : Nat) :
    getAt (growTo l i) j = getAt l j := by
  unfold getAt growTo
  rcases Nat.lt_or_ge j l.length with h | h
  · simp [List.getD, List.getElem?_append_left h]
  · rw [List.getD_eq_getElem?_getD, List.getD_eq_getElem?_getD,
      List.getElem?_append_right h]
    rcases Nat.lt_or_ge (j - l.length) (i + 1 - l.length) with h2 | h2
    · simp [List.getElem?_replicate, h2, List.getElem?_eq_none (by omega : l.length ≤ j)]
    · simp [List.getElem?_replicate, Nat.not_lt.mpr h2,
        List.getElem?_eq_none (by omega : l.length ≤ j)]

theorem getAt_setAt (l : List ToolCallData) (n j : Nat) (f : ToolCallData → ToolCallData) :
    getAt (setAt l n f) j =
      if j = n ∧ n < l.length then f (getAt l n) else getAt l j := by
  induction l generalizing n j with
  | nil => simp [setAt, getAt]
  | cons x xs ih =>
    cases n with
    | zero =>
      cases j with
      | zero => simp [setAt, getAt]
      | succ j => simp [setAt, getAt]
    | succ n =>
      cases j with
      | zero => simp [setAt, getAt]
      | succ j =>
        show getAt (setAt xs n f) j =
          if j + 1 = n + 1 ∧ n + 1 < xs.length + 1 then f (getAt xs n) else getAt xs j
        rw [ih]
        congr 1
        simp only [eq_iff_iff]
        omega

theorem getAt_applyDelta (acc : List ToolCallData) (d : ToolCallDelta) (j : Nat) :
    getAt (applyDelta acc d) j =
      if j = d.index then updateRecord (getAt acc d.index) d else getAt acc j := by
  unfold applyDelta
  rw [getAt_setAt, getAt_growTo, getAt_growTo]
  have hlen : d.index < (growTo acc d.index).length := by
    rw [length_growTo]; omega
  by_cases h : j = d.index
  · simp [h, hlen]
  · simp [h]

theorem getD_of_not_truthy {o : Option String} (h : ¬ truthy o) : o.getD "" = "" := by
  cases o with
  | none => rfl
  | some s =>
    simp only [truthy, Bool.not_eq_true, Bool.not_eq_true'] at h
    simpa [String.isEmpty_iff] using h

theorem arguments_updateRecord (r : ToolCallData) (d : ToolCallDelta) :
    (updateRecord r d).arguments = r.arguments ++ d.fargs.getD "" := by
  unfold updateRecord
  by_cases h4 : truthy d.fargs <;>
    by_cases h1 : truthy d.id <;> by_cases h2 : truthy d.type <;>
    by_cases h3 : truthy d.fname <;>
    simp [h1, h2, h3, h4, getD_of_not_truthy]

theorem id_updateRecord (r : ToolCallData) (d : ToolCallDelta) :
    (updateRecord r d).id = if truthy d.id then d.id.getD "" else r.id := by
  unfold updateRecord
  by_cases h4 : truthy d.fargs <;>
    by_cases h1 : truthy d.id <;> by_cases h2 : truthy d.type <;>
    by_cases h3 : truthy d.fname <;>
    simp [h1, h2, h3, h4]

theorem name_updateRecord (r : ToolCallData) (d : ToolCallDelta) :
    (updateRecord r d).name = if truthy d.fname then d.fname.getD "" else r.name := by
  unfold updateRecord
  by_cases h4 : truthy d.fargs <;>
    by_cases h1 : truthy d.id <;> by_cases h2 : truthy d.type <;>
    by_cases h3 : truthy d.fname <;>
    simp [h1, h2, h3, h4]

theorem arguments_foldDeltasFrom (acc : List ToolCallData) (ds : List ToolCallDelta)
    (i : Nat) :
    (getAt (foldDeltasFrom acc ds) i).arguments
      = (getAt acc i).arguments ++ concatAll (argFragsAt ds i) := by
  induction ds generalizing acc with
  | nil => simp [foldDeltasFrom, argFragsAt, concatAll]
  | cons d ds ih =>
    show (getAt (foldDeltasFrom (applyDelta acc d) ds) i).arguments = _
    rw [ih, getAt_applyDelta]
    by_cases h : i = d.index
    · simp only [h, if_pos rfl, arguments_updateRecord, argFragsAt, List.filter_cons,
        beq_self_eq_true, if_pos, concatAll]
      simp [concatAll, argFragsAt, String.append_assoc]
    · have hne : (d.index == i) = false := by simp [Ne.symm h]
      simp [h, argFragsAt, List.filter_cons, hne]

theorem id_foldDeltasFrom (acc : List ToolCallData) (ds : List ToolCallDelta) (i : Nat) :
    (getAt (foldDeltasFrom acc ds) i).id
      = ((lastSupplied ds i (fun d => d.id)).getD (getAt acc i).id) := by
  induction ds generalizing acc with
  | nil => simp [foldDeltasFrom, lastSupplied]
  | cons d ds ih =>
    show (getAt (foldDeltasFrom (applyDelta acc d) ds) i).id = _
    rw [ih]
    unfold lastSupplied
    rw [List.reverse_cons, List.find?_append]
    cases hfind : ds.reverse.find? (fun d => d.index == i && truthy d.id) with
    | some d' => simp [hfind, Option.or]
    | none =>
      simp only [hfind, Option.or, Option.map]
      rw [getAt_applyDelta]
      by_cases h : i = d.index
      · subst h
        simp only [if_pos rfl, id_updateRecord, List.find?]
        by_cases ht : truthy d.id
        · simp [ht, id_updateRecord]
        · simp [ht, id_updateRecord]
      · have hne : (d.index == i) = false := by simp [Ne.symm h]
        simp [h, List.find?, hne]

theorem name_foldDeltasFrom (acc : List ToolCallData) (ds : List ToolCallDelta) (i : Nat) :
    (getAt (foldDeltasFrom acc ds) i).name
      = ((lastSupplied ds i (fun d => d.fname)).getD (getAt acc i).name) := by
  induction ds generalizing acc with
  | nil => simp [foldDeltasFrom, lastSupplied]
  | cons d ds ih =>
    show (getAt (foldDeltasFrom (applyDelta acc d) ds) i).name = _
    rw [ih]
    unfold lastSupplied
    rw [List.reverse_cons, List.find?_append]
    cases hfind : ds.reverse.find? (fun d => d.index == i && truthy d.fname) with
    | some d' => simp [hfind, Option.or]
    | none =>
      simp only [hfind, Option.or, Option.map]
      rw [getAt_applyDelta]
      by_cases h : i = d.index
      · subst h
        simp only [if_pos rfl, name_updateRecord, List.find?]
        by_cases ht : truthy d.fname
        · simp [ht, name_updateRecord]
        · simp [ht, name_updateRecord]
      · have hne : (d.index == i) = false := by simp [Ne.symm h]
        simp [h, List.find?, hne]

/- ### Lemmas about stream consumption -/

theorem text_procChunk (st : AccumState) (c : StreamChunk) :
    ((procChunk st c).1).text = st.text ++ c.content.getD "" := by
  unfold procChunk
  by_cases h : truthy c.content
  · simp [h]
  · simp [h, getD_of_not_truthy h]

theorem records_procChunk (st : AccumState) (c : StreamChunk) :
    ((procChunk st c).1).records = foldDeltasFrom st.records c.tool_calls := by
  unfold procChunk
  by_cases h : truthy c.content <;> simp [h]

theorem fst_procChunks_cons (st : AccumState) (c : StreamChunk) (cs : List StreamChunk) :
    procChunks st (c :: cs)
      = ((procChunks (procChunk st c).1 cs).1,
         (procChunk st c).2 ++ (procChunks (procChunk st c).1 cs).2) := rfl

theorem text_procChunks (st : AccumState) (cs : List StreamChunk) :
    ((procChunks st cs).1).text
      = st.text ++ concatAll (cs.map (fun c => c.content.getD "")) := by
  induction cs generalizing st with
  | nil => simp [procChunks, concatAll]
  | cons c cs ih =>
    rw [fst_procChunks_cons]
    simp only [ih, text_procChunk, List.map_cons, concatAll, String.append_assoc]

theorem records_procChunks (st : AccumState) (cs : List StreamChunk) :
    ((procChunks st cs).1).records
      = foldDeltasFrom st.records ((cs.map (fun c => c.tool_calls)).flatten) := by
  induction cs generalizing st with
  | nil => simp [procChunks, foldDeltasFrom]
  | cons c cs ih =>
    rw [fst_procChunks_cons]
    simp only [ih, records_procChunk, List.map_cons, List.flatten]
    rw [foldDeltasFrom, foldDeltasFrom, foldDeltasFrom, List.foldl_append]

theorem fullResponses_append (a b : List Event) :
    fullResponses (a ++ b) = fullResponses a ++ fullResponses b :=
  List.filterMap_append a b _

theorem fullResponses_procChunks (st : AccumState) (cs : List StreamChunk) :
    fullResponses (procChunks st cs).2 = [] := by
  induction cs generalizing st with
  | nil => rfl
  | cons c cs ih =>
    rw [fst_procChunks_cons]
    rw [fullResponses_append, ih]
    unfold procChunk
    by_cases h : truthy c.content <;> simp [h, fullResponses]

/- ### Lemmas about the tool executor -/

theorem fullResponses_invokePhase (env : ToolEnv Args) (args : Args) (tc : ToolCallData) :
    fullResponses (invokePhase env args tc).1 = [] := by
  unfold invokePhase
  by_cases h : tc.name ∈ localToolNames
  · simp only [h, if_pos]
    cases env.runTool tc.name args <;> simp [fullResponses]
  · simp [h, fullResponses]

theorem fullResponses_executeCall (env : ToolEnv Args) (tc : ToolCallData) :
    fullResponses (executeCall env tc).1 = [] := by
  unfold executeCall
  cases env.decode tc.arguments with
  | some args => exact fullResponses_invokePhase env args tc
  | none =>
    have h := fullResponses_invokePhase env env.emptyArgs tc
    show fullResponses (Event.error _ :: (invokePhase env env.emptyArgs tc).1) = []
    simpa [fullResponses] using h

theorem execAll_eq (env : ToolEnv Args) (tcs : List ToolCallData) :
    execAll env tcs
      = ((tcs.map (fun tc => (executeCall env tc).1)).flatten,
         tcs.map (fun tc => (executeCall env tc).2)) := by
  induction tcs with
  | nil => rfl
  | cons tc tcs ih => simp [execAll, ih, List.flatten]

/- ### Lemmas about loop iterations -/

theorem stepTurn_failure (env : ToolEnv Args) (st : LoopState) (e : PyExn) :
    stepTurn env st (ProviderTurn.failure e)
      = ([Event.error (apiErrMsg e)], st, Outcome.fatal) := rfl

theorem stepTurn_stream_empty (env : ToolEnv Args) (st : LoopState)
    (chunks : List StreamChunk) (h : (procChunks ⟨"", []⟩ chunks).1.records = []) :
    stepTurn env st (ProviderTurn.stream chunks)
      = ((procChunks ⟨"", []⟩ chunks).2
           ++ [Event.full_response
                 (st.new_messages ++ [assistantMsg (procChunks ⟨"", []⟩ chunks).1])],
         appendMsg st (assistantMsg (procChunks ⟨"", []⟩ chunks).1),
         Outcome.finished) := by
  unfold stepTurn
  simp [h, appendMsg]

theorem stepTurn_stream_nonempty (env : ToolEnv Args) (st : LoopState)
    (chunks : List StreamChunk) (h : (procChunks ⟨"", []⟩ chunks).1.records ≠ []) :
    stepTurn env st (ProviderTurn.stream chunks)
      = ((procChunks ⟨"", []⟩ chunks).2
           ++ (procChunks ⟨"", []⟩ chunks).1.records.map Event.tool_call
           ++ ((procChunks ⟨"", []⟩ chunks).1.records.map
                 (fun r => (executeCall env r).1)).flatten,
         appendMsgs (appendMsg st (assistantMsg (procChunks ⟨"", []⟩ chunks).1))
           ((procChunks ⟨"", []⟩ chunks).1.records.map (fun r => (executeCall env r).2)),
         Outcome.next) := by
  unfold stepTurn
  have hne : (procChunks ⟨"", []⟩ chunks).1.records.isEmpty = false := by
    simpa [List.isEmpty_iff] using h
  simp [hne, execAll_eq]

theorem chat_history_stepTurn (env : ToolEnv Args) (st : LoopState) (t : ProviderTurn) :
    (stepTurn env st t).2.1.chat_history = st.chat_history := by
  cases t with
  | failure e => rfl
  | stream chunks =>
    by_cases h : (procChunks ⟨"", []⟩ chunks).1.records = []
    · rw [stepTurn_stream_empty env st chunks h]
      simp [appendMsg]
    · rw [stepTurn_stream_nonempty env st chunks h]
      simp [appendMsg, appendMsgs]

theorem chat_history_runTurns (env : ToolEnv Args) (st : LoopState)
    (ts : List ProviderTurn) :
    (runTurns env st ts).2.1.chat_history = st.chat_history := by
  induction ts generalizing st with
  | nil => rfl
  | cons t ts ih =>
    show (match stepTurn env st t with
      | (evs, st', Outcome.finished) => (evs, st', RunEnd.completed)
      | (evs, st', Outcome.fatal) => (evs, st', RunEnd.fatal)
      | (evs, st', Outcome.next) =>
        let (evs', st'', e) := runTurns env st' ts
        (evs ++ evs', st'', e)).2.1.chat_history = st.chat_history
    have hst := chat_history_stepTurn env st t
    rcases hstep : stepTurn env st t with ⟨evs, st', o⟩
    rw [hstep] at hst
    cases o with
    | finished => simpa using hst
    | fatal => simpa using hst
    | next =>
      simp only []
      rw [ih st']
      simpa using hst

theorem fullResponses_map_tool_call (rs : List ToolCallData) :
    fullResponses (rs.map Event.tool_call) = [] := by
  induction rs with
  | nil => rfl
  | cons r rs ih => simp [fullResponses]

theorem fullResponses_execs (env : ToolEnv Args) (rs : List ToolCallData) :
    fullResponses ((rs.map (fun r => (executeCall env r).1)).flatten) = [] := by
  induction rs with
  | nil => rfl
  | cons r rs ih =>
    simp only [List.map_cons, List.flatten_cons, fullResponses_append,
      fullResponses_executeCall, ih, List.append_nil]

/-- Events emitted during one `next`-outcome iteration contain no
FinalResponse event. -/
theorem fullResponses_stepTurn_next (env : ToolEnv Args) (st : LoopState)
    (chunks : List StreamChunk) (h : (procChunks ⟨"", []⟩ chunks).1.records ≠ []) :
    fullResponses (stepTurn env st (ProviderTurn.stream chunks)).1 = [] := by
  rw [stepTurn_stream_nonempty env st chunks h]
  simp only [fullResponses_append, fullResponses_procChunks,
    fullResponses_map_tool_call, fullResponses_execs, List.append_nil]

/-- A run of the loop body that ends in `completed` emitted exactly one
FinalResponse event (the one of line 184), its payload is the final
`new_messages`, it is the last event, and the turns after the terminating
one are never consumed. -/
theorem runTurns_completed (env : ToolEnv Args) (st : LoopState)
    (ts : List ProviderTurn) (h : (runTurns env st ts).2.2 = RunEnd.completed) :
    fullResponses (runTurns env st ts).1 = [(runTurns env st ts).2.1.new_messages]
    ∧ (runTurns env st ts).1.getLast?
        = some (Event.full_response (runTurns env st ts).2.1.new_messages)
    ∧ ∀ extra, runTurns env st (ts ++ extra) = runTurns env st ts := by
  induction ts generalizing st with
  | nil => exact absurd h (by simp [runTurns])
  | cons t ts ih =>
    cases t with
    | failure e =>
      exact absurd h (by simp [runTurns, stepTurn_failure])
    | stream chunks =>
      by_cases hrec : (procChunks ⟨"", []⟩ chunks).1.records = []
      · have hstep := stepTurn_stream_empty env st chunks hrec
        have hrun : runTurns env st (ProviderTurn.stream chunks :: ts)
            = ((procChunks ⟨"", []⟩ chunks).2
                 ++ [Event.full_response
                      (st.new_messages
                        ++ [assistantMsg (procChunks ⟨"", []⟩ chunks).1])],
               appendMsg st (assistantMsg (procChunks ⟨"", []⟩ chunks).1),
               RunEnd.completed) := by
          simp [runTurns, hstep]
        refine ⟨?_, ?_, ?_⟩
        · rw [hrun]
          rw [fullResponses_append, fullResponses_procChunks]
          rfl
        · rw [hrun]
          simp only [List.getLast?_concat]
          rfl
        · intro extra
          have hrun' : runTurns env st (ProviderTurn.stream chunks :: (ts ++ extra))
              = ((procChunks ⟨"", []⟩ chunks).2
                   ++ [Event.full_response
                        (st.new_messages
                          ++ [assistantMsg (procChunks ⟨"", []⟩ chunks).1])],
                 appendMsg st (assistantMsg (procChunks ⟨"", []⟩ chunks).1),
                 RunEnd.completed) := by
            simp [runTurns, hstep]
          rw [List.cons_append, hrun', hrun]
      · have hstep := stepTurn_stream_nonempty env st chunks hrec
        set st' := appendMsgs (appendMsg st (assistantMsg (procChunks ⟨"", []⟩ chunks).1))
          ((procChunks ⟨"", []⟩ chunks).1.records.map (fun r => (executeCall env r).2))
          with hst'
        have hrun : runTurns env st (ProviderTurn.stream chunks :: ts)
            = ((stepTurn env st (ProviderTurn.stream chunks)).1
                 ++ (runTurns env st' ts).1,
               (runTurns env st' ts).2.1, (runTurns env st' ts).2.2) := by
          rw [runTurns, hstep]
        have hend : (runTurns env st' ts).2.2 = RunEnd.completed := by
          rw [hrun] at h; exact h
        obtain ⟨ih1, ih2, ih3⟩ := ih st' hend
        have hne : (runTurns env st' ts).1 ≠ [] := by
          intro hnil; rw [hnil] at ih2; exact absurd ih2 (by simp)
        refine ⟨?_, ?_, ?_⟩
        · rw [hrun]
          simp only [fullResponses_append]
          rw [fullResponses_stepTurn_next env st chunks hrec, ih1]
          rfl
        · rw [hrun]
          simp only []
          rw [List.getLast?_append_of_ne_nil _ hne, ih2]
        · intro extra
          have hrun' : runTurns env st (ProviderTurn.stream chunks :: (ts ++ extra))
              = ((stepTurn env st (ProviderTurn.stream chunks)).1
                   ++ (runTurns env st' (ts ++ extra)).1,
                 (runTurns env st' (ts ++ extra)).2.1,
                 (runTurns env st' (ts ++ extra)).2.2) := by
            rw [runTurns, hstep]
          rw [List.cons_append, hrun', hrun, ih3 extra]

/-- A run of the loop body that ends in `fatal` has an Error event as its
last event. -/
theorem runTurns_fatal_getLast (env : ToolEnv Args) (st : LoopState)
    (ts : List ProviderTurn) (h : (runTurns env st ts).2.2 = RunEnd.fatal) :
    ((runTurns env st ts).1.getLast?.map isErrorEvent) = some true := by
  induction ts generalizing st with
  | nil => exact absurd h (by simp [runTurns])
  | cons t ts ih =>
    cases t with
    | failure e =>
      have hrun : runTurns env st (ProviderTurn.failure e :: ts)
          = ([Event.error (apiErrMsg e)], st, RunEnd.fatal) := by
        simp [runTurns, stepTurn_failure]
      rw [hrun]
      rfl
    | stream chunks =>
      by_cases hrec : (procChunks ⟨"", []⟩ chunks).1.records = []
      · exact absurd h (by simp [runTurns, stepTurn_stream_empty env st chunks hrec])
      · have hstep := stepTurn_stream_nonempty env st chunks hrec
        set st' := appendMsgs (appendMsg st (assistantMsg (procChunks ⟨"", []⟩ chunks).1))
          ((procChunks ⟨"", []⟩ chunks).1.records.map (fun r => (executeCall env r).2))
        have hrun : runTurns env st (ProviderTurn.stream chunks :: ts)
            = ((stepTurn env st (ProviderTurn.stream chunks)).1
                 ++ (runTurns env st' ts).1,
               (runTurns env st' ts).2.1, (runTurns env st' ts).2.2) := by
          rw [runTurns, hstep]
        have hend : (runTurns env st' ts).2.2 = RunEnd.fatal := by
          rw [hrun] at h; exact h
        have ih' := ih st' hend
        have hne : (runTurns env st' ts).1 ≠ [] := by
          intro hnil; rw [hnil] at ih'; exact absurd ih' (by simp)
        rw [hrun]
        simp only []
        rw [List.getLast?_append_of_ne_nil _ hne]
        exact ih'

/- ### Lemmas about the executor's events and messages -/

theorem stepTurn_outcome_next (env : ToolEnv Args) (st : LoopState)
    (chunks : List StreamChunk) (h : (procChunks ⟨"", []⟩ chunks).1.records ≠ []) :
    (stepTurn env st (ProviderTurn.stream chunks)).2.2 = Outcome.next := by
  rw [stepTurn_stream_nonempty env st chunks h]

theorem toolResultsOf_invokePhase (env : ToolEnv Args) (args : Args) (tc : ToolCallData) :
    (toolResultsOf (invokePhase env args tc).1).map (fun p => p.1) = [tc.id] := by
  unfold invokePhase
  by_cases h : tc.name ∈ localToolNames
  · simp only [h, if_pos]
    cases env.runTool tc.name args <;> simp [toolResultsOf]
  · simp [h, toolResultsOf]

theorem toolResultsOf_executeCall_ids (env : ToolEnv Args) (tc : ToolCallData) :
    (toolResultsOf (executeCall env tc).1).map (fun p => p.1) = [tc.id] := by
  unfold executeCall
  cases env.decode tc.arguments with
  | some args => exact toolResultsOf_invokePhase env args tc
  | none =>
    have h := toolResultsOf_invokePhase env env.emptyArgs tc
    show (toolResultsOf (Event.error _ :: (invokePhase env env.emptyArgs tc).1)).map _ = _
    simpa [toolResultsOf] using h

theorem invokePhase_msg_fields (env : ToolEnv Args) (args : Args) (tc : ToolCallData) :
    ((invokePhase env args tc).2).role = "tool"
    ∧ ((invokePhase env args tc).2).tool_call_id = some tc.id := by
  unfold invokePhase
  by_cases h : tc.name ∈ localToolNames
  · simp only [h, if_pos]
    cases env.runTool tc.name args <;> simp
  · simp [h]

theorem executeCall_msg_fields (env : ToolEnv Args) (tc : ToolCallData) :
    ((executeCall env tc).2).role = "tool"
    ∧ ((executeCall env tc).2).tool_call_id = some tc.id := by
  unfold executeCall
  cases env.decode tc.arguments with
  | some args => exact invokePhase_msg_fields env args tc
  | none => exact invokePhase_msg_fields env env.emptyArgs tc

theorem invokePhase_unknown (env : ToolEnv Args) (args : Args) (tc : ToolCallData)
    (h : tc.name ∉ localToolNames) :
    invokePhase env args tc
      = ([Event.error (callErrMsg tc.name ⟨"ValueError", "Unknown tool: " ++ tc.name⟩),
          Event.tool_result tc.id (execErrContent tc.name ("Unknown tool: " ++ tc.name)) true],
         { role := "tool",
           content := some (execErrContent tc.name ("Unknown tool: " ++ tc.name)),
           tool_calls := none, tool_call_id := some tc.id }) := by
  unfold invokePhase
  simp [h]

theorem parseErrMsg_ne_callErrMsg (s n : String) (e : PyExn) :
    parseErrMsg s ≠ callErrMsg n e := by
  intro heq
  have hd := congrArg String.data heq
  unfold parseErrMsg callErrMsg at hd
  have hp : (("\n[Error parsing tool arguments]: Invalid JSON: " ++ s ++ "\n")).data[8]?
      = some 'p' := by
    rw [String.data_append, String.data_append]
    rw [List.getElem?_append_left (by
      rw [List.length_append]
      have h47 : ("\n[Error parsing tool arguments]: Invalid JSON: ").data.length = 47 := by
        decide
      omega)]
    rw [List.getElem?_append_left (by decide)]
    decide
  have hc : (("\n[Error calling tool " ++ n ++ "]: " ++ e.typeName ++ ": " ++ e.msg
        ++ "\n")).data[8]? = some 'c' := by
    rw [String.data_append, String.data_append, String.data_append,
      String.data_append, String.data_append, String.data_append]
    rw [List.getElem?_append_left (by
      simp only [List.length_append, List.length_cons, List.length_nil]; omega)]
    rw [List.getElem?_append_left (by
      simp only [List.length_append, List.length_cons, List.length_nil]; omega)]
    rw [List.getElem?_append_left (by
      simp only [List.length_append, List.length_cons, List.length_nil]; omega)]
    rw [List.getElem?_append_left (by
      simp only [List.length_append, List.length_cons, List.length_nil]; omega)]
    rw [List.getElem?_append_left (by
      simp only [List.length_append, List.length_cons, List.length_nil]; omega)]
    rw [List.getElem?_append_left (by decide)]
    decide
  rw [hd, hc] at hp
  exact absurd hp (by decide)

theorem parseErr_not_in_invokePhase (env : ToolEnv Args) (args : Args)
    (tc : ToolCallData) :
    Event.error (parseErrMsg tc.arguments) ∉ (invokePhase env args tc).1 := by
  unfold invokePhase
  by_cases h : tc.name ∈ localToolNames
  · simp only [h, if_pos]
    cases env.runTool tc.name args with
    | ok c => simp
    | error e =>
      intro hmem
      rcases List.mem_cons.mp hmem with h1 | h2
      · exact parseErrMsg_ne_callErrMsg tc.arguments tc.name e (Event.error.inj h1)
      · simp at h2
  · intro hmem
    simp only [h, if_neg, not_false_iff, List.mem_cons] at hmem
    rcases hmem with h1 | h2
    · exact parseErrMsg_ne_callErrMsg tc.arguments tc.name
        ⟨"ValueError", "Unknown tool: " ++ tc.name⟩ (Event.error.inj h1)
    · simp at h2

theorem length_foldDeltasFrom_ge (acc : List ToolCallData) (ds : List ToolCallDelta) :
    acc.length ≤ (foldDeltasFrom acc ds).length := by
  induction ds generalizing acc with
  | nil => exact Nat.le_refl _
  | cons d ds ih =>
    calc acc.length ≤ (applyDelta acc d).length := by
          rw [length_applyDelta]; omega
      _ ≤ (foldDeltasFrom (applyDelta acc d) ds).length := ih (applyDelta acc d)

theorem getAt_of_length_le (l : List ToolCallData) (j : Nat) (h : l.length ≤ j) :
    getAt l j = emptyToolCall := by
  simp [getAt, List.getD_eq_getElem?_getD, List.getElem?_eq_none h]

/- ### Claim theorems -/

/-- C4: for every finite sequence of stream chunks, the accumulated
assistant text equals the order-preserving concatenation of all text
fragments received, and every record's `arguments` string equals the
concatenation of the argument fragments received for its index, in arrival
order — hence the result is invariant under how the content was split
across chunks. -/
theorem C4_concatenation (cs : List StreamChunk) (i : Nat) :
    ((procChunks ⟨"", []⟩ cs).1).text
      = concatAll (cs.map (fun c => c.content.getD ""))
    ∧ (getAt ((procChunks ⟨"", []⟩ cs).1).records i).arguments
      = concatAll (argFragsAt ((cs.map (fun c => c.tool_calls)).flatten) i) := by
  constructor
  · have h := text_procChunks ⟨"", []⟩ cs
    simpa using h
  · rw [records_procChunks]
    have h := arguments_foldDeltasFrom [] ((cs.map (fun c => c.tool_calls)).flatten) i
    have hnil : (getAt ([] : List ToolCallData) i).arguments = "" := by
      rw [getAt_of_length_le [] i (by simp)]
      rfl
    rw [hnil] at h
    simpa using h

/-- C2 counterexample: two deltas for index 0 carrying the non-empty ids
`"a"` then `"b"` leave the record with id `"b"` — the claimed first-write-wins
semantics would leave `"a"`. -/
theorem C2_counterexample :
    (getAt (foldDeltas
        [⟨0, some "a", none, none, none⟩, ⟨0, some "b", none, none, none⟩]) 0).id = "b"
    ∧ ("b" : String) ≠ "a" := by
  constructor
  · rfl
  · decide

/-- C2 (amended): the `id` (and likewise `name`) of the record at index `i`
is the value carried by the **last** delta for that index that supplies a
non-empty value — later non-empty values overwrite earlier ones (last write
wins), and the record reads `""` when no delta ever supplied one. -/
theorem C2_last_write_wins (ds : List ToolCallDelta) (i : Nat) :
    (getAt (foldDeltas ds) i).id = (lastSupplied ds i (fun d => d.id)).getD ""
    ∧ (getAt (foldDeltas ds) i).name = (lastSupplied ds i (fun d => d.fname)).getD "" := by
  constructor
  · have h := id_foldDeltasFrom [] ds i
    rw [show (getAt ([] : List ToolCallData) i).id = "" by
      rw [getAt_of_length_le [] i (by simp)]; rfl] at h
    exact h
  · have h := name_foldDeltasFrom [] ds i
    rw [show (getAt ([] : List ToolCallData) i).name = "" by
      rw [getAt_of_length_le [] i (by simp)]; rfl] at h
    exact h

/-- C5: the record collection grows monotonically; a delta at index `k`
arriving when the collection has length at most `k` extends it to exactly
`k + 1` entries, leaves existing entries unchanged, and fills the gap with
placeholder records; in particular a first delta at index 2 yields a
3-element collection whose first two entries are the empty placeholder,
whose `id`, `name` and `arguments` fields are all `""`. -/
theorem C5_monotone_growth :
    (∀ (acc : List ToolCallData) (d : ToolCallDelta),
       acc.length ≤ (applyDelta acc d).length)
    ∧ (∀ (ds ext : List ToolCallDelta),
       (foldDeltas ds).length ≤ (foldDeltas (ds ++ ext)).length)
    ∧ (∀ (acc : List ToolCallData) (d : ToolCallDelta), acc.length ≤ d.index →
        (applyDelta acc d).length = d.index + 1
        ∧ (∀ j, j < acc.length → getAt (applyDelta acc d) j = getAt acc j)
        ∧ (∀ j, acc.length ≤ j → j < d.index → getAt (applyDelta acc d) j = emptyToolCall))
    ∧ (∀ d : ToolCallDelta, d.index = 2 →
        (foldDeltas [d]).length = 3
        ∧ getAt (foldDeltas [d]) 0 = emptyToolCall
        ∧ getAt (foldDeltas [d]) 1 = emptyToolCall)
    ∧ emptyToolCall.id = "" ∧ emptyToolCall.name = "" ∧ emptyToolCall.arguments = "" := by
  have hgrow : ∀ (acc : List ToolCallData) (d : ToolCallDelta), acc.length ≤ d.index →
      (applyDelta acc d).length = d.index + 1
      ∧ (∀ j, j < acc.length → getAt (applyDelta acc d) j = getAt acc j)
      ∧ (∀ j, acc.length ≤ j → j < d.index → getAt (applyDelta acc d) j = emptyToolCall) := by
    intro acc d h
    refine ⟨by rw [length_applyDelta]; omega, ?_, ?_⟩
    · intro j hj
      rw [getAt_applyDelta]
      have : j ≠ d.index := by omega
      simp [this]
    · intro j hj1 hj2
      rw [getAt_applyDelta]
      have : j ≠ d.index := by omega
      simp only [this, if_neg, not_false_iff]
      exact getAt_of_length_le acc j hj1
  refine ⟨?_, ?_, hgrow, ?_, rfl, rfl, rfl⟩
  · intro acc d
    rw [length_applyDelta]; omega
  · intro ds ext
    rw [show foldDeltas (ds ++ ext) = foldDeltasFrom (foldDeltas ds) ext by
      simp [foldDeltas, foldDeltasFrom, List.foldl_append]]
    exact length_foldDeltasFrom_ge _ ext
  · intro d hd
    have h0 : ([] : List ToolCallData).length ≤ d.index := by simp
    obtain ⟨h1, _, h3⟩ := hgrow [] d h0
    have hfold : foldDeltas [d] = applyDelta [] d := rfl
    refine ⟨by rw [hfold, h1, hd], ?_, ?_⟩
    · rw [hfold]; exact h3 0 (by simp) (by omega)
    · rw [hfold]; exact h3 1 (by simp) (by omega)

/-- C5 witness: the growth clause evaluated on a concrete first delta at
index 2 over the empty collection. -/
theorem C5_witness :
    (applyDelta [] sampleDeltaAt2).length = sampleDeltaAt2.index + 1
    ∧ getAt (applyDelta [] sampleDeltaAt2) 0 = emptyToolCall :=
  ⟨(C5_monotone_growth.2.2.1 [] sampleDeltaAt2 (by decide)).1,
   (C5_monotone_growth.2.2.1 [] sampleDeltaAt2 (by decide)).2.2 0 (by decide) (by decide)⟩

/-- C3 counterexample: executing a call to the unregistered tool
`mystery_tool` yields a ToolResult event whose content is the full
`"Error executing tool '...': Unknown tool: ..."` string, not the bare
`"Unknown tool: mystery_tool"` the claim states. -/
theorem C3_counterexample :
    toolResultsOf (executeCall sampleEnv sampleUnknownCall).1
      = [("call1", "Error executing tool 'mystery_tool': Unknown tool: mystery_tool", true)]
    ∧ ("Error executing tool 'mystery_tool': Unknown tool: mystery_tool" : String)
      ≠ "Unknown tool: mystery_tool" := by
  constructor
  · rfl
  · decide

/-- C3 (amended): executing a tool call whose name is not in the registry
produces exactly one ToolResult event with `error = true` whose content is
`"Error executing tool '<name>': Unknown tool: <name>"`, appends a
tool-role message with that same content and the call's `tool_call_id`
(no exception reaches the caller), and the loop continues to the next
iteration. -/
theorem C3_unknown_tool {Args : Type} (env : ToolEnv Args) (tc : ToolCallData)
    (h : tc.name ∉ localToolNames) :
    toolResultsOf (executeCall env tc).1
      = [(tc.id, execErrContent tc.name ("Unknown tool: " ++ tc.name), true)]
    ∧ (executeCall env tc).2
      = { role := "tool",
          content := some (execErrContent tc.name ("Unknown tool: " ++ tc.name)),
          tool_calls := none, tool_call_id := some tc.id }
    ∧ (∀ (st : LoopState) (chunks : List StreamChunk),
        (procChunks ⟨"", []⟩ chunks).1.records ≠ [] →
        (stepTurn env st (ProviderTurn.stream chunks)).2.2 = Outcome.next) := by
  refine ⟨?_, ?_, fun st chunks hne => stepTurn_outcome_next env st chunks hne⟩
  · unfold executeCall
    cases env.decode tc.arguments with
    | some args =>
      show toolResultsOf (invokePhase env args tc).1 = _
      rw [invokePhase_unknown env args tc h]
      rfl
    | none =>
      show toolResultsOf (Event.error _ :: (invokePhase env env.emptyArgs tc).1) = _
      rw [invokePhase_unknown env env.emptyArgs tc h]
      rfl
  · unfold executeCall
    cases env.decode tc.arguments with
    | some args =>
      show (invokePhase env args tc).2 = _
      rw [invokePhase_unknown env args tc h]
    | none =>
      show (invokePhase env env.emptyArgs tc).2 = _
      rw [invokePhase_unknown env env.emptyArgs tc h]

/-- C3 witness: the amended statement evaluated at a concrete unknown-tool
call. -/
theorem C3_witness :
    toolResultsOf (executeCall sampleEnvBadJson sampleUnknownCall).1
      = [(sampleUnknownCall.id,
          execErrContent sampleUnknownCall.name
            ("Unknown tool: " ++ sampleUnknownCall.name), true)]
    ∧ (executeCall sampleEnvBadJson sampleUnknownCall).2
      = { role := "tool",
          content := some (execErrContent sampleUnknownCall.name
            ("Unknown tool: " ++ sampleUnknownCall.name)),
          tool_calls := none, tool_call_id := some sampleUnknownCall.id } :=
  ⟨(C3_unknown_tool sampleEnvBadJson sampleUnknownCall (by decide)).1,
   (C3_unknown_tool sampleEnvBadJson sampleUnknownCall (by decide)).2.1⟩

/-- C6: a tool call whose accumulated `arguments` string fails to decode
yields exactly one Error event describing the malformed payload, after
which the invocation proceeds with the empty argument set; the run is not
aborted and the loop continues. -/
theorem C6_malformed_arguments {Args : Type} (env : ToolEnv Args) (tc : ToolCallData)
    (h : env.decode tc.arguments = none) :
    executeCall env tc
      = (Event.error (parseErrMsg tc.arguments) :: (invokePhase env env.emptyArgs tc).1,
         (invokePhase env env.emptyArgs tc).2)
    ∧ (executeCall env tc).1.count (Event.error (parseErrMsg tc.arguments)) = 1
    ∧ (∀ (st : LoopState) (chunks : List StreamChunk),
        (procChunks ⟨"", []⟩ chunks).1.records ≠ [] →
        (stepTurn env st (ProviderTurn.stream chunks)).2.2 = Outcome.next) := by
  have h1 : executeCall env tc
      = (Event.error (parseErrMsg tc.arguments) :: (invokePhase env env.emptyArgs tc).1,
         (invokePhase env env.emptyArgs tc).2) := by
    unfold executeCall
    rw [h]
  refine ⟨h1, ?_, fun st chunks hne => stepTurn_outcome_next env st chunks hne⟩
  rw [h1]
  show (Event.error (parseErrMsg tc.arguments)
      :: (invokePhase env env.emptyArgs tc).1).count _ = 1
  rw [List.count_cons_self]
  rw [List.count_eq_zero.mpr (parseErr_not_in_invokePhase env env.emptyArgs tc)]

/-- C6 witness: the decode-failure path evaluated at a concrete call with
undecodable arguments. -/
theorem C6_witness :
    executeCall sampleEnvBadJson sampleWikiCall
      = (Event.error (parseErrMsg sampleWikiCall.arguments)
           :: (invokePhase sampleEnvBadJson sampleEnvBadJson.emptyArgs sampleWikiCall).1,
         (invokePhase sampleEnvBadJson sampleEnvBadJson.emptyArgs sampleWikiCall).2)
    ∧ (executeCall sampleEnvBadJson sampleWikiCall).1.count
        (Event.error (parseErrMsg sampleWikiCall.arguments)) = 1 :=
  ⟨(C6_malformed_arguments sampleEnvBadJson sampleWikiCall (by decide)).1,
   (C6_malformed_arguments sampleEnvBadJson sampleWikiCall (by decide)).2.1⟩

/-- C8: tool calls are executed strictly sequentially in announced order:
every execution yields exactly one ToolResult event carrying the
originating `tool_call_id`; each appended message is tool-role and carries
that id; and an assistant message with `n` tool calls is followed by
exactly the `n` corresponding tool-role messages, in call order, with the
loop then proceeding to the next provider request. -/
theorem C8_sequential_execution {Args : Type} :
    (∀ (env : ToolEnv Args) (tc : ToolCallData),
       (toolResultsOf (executeCall env tc).1).map (fun p => p.1) = [tc.id])
    ∧ (∀ (env : ToolEnv Args) (tc : ToolCallData),
       ((executeCall env tc).2).role = "tool"
       ∧ ((executeCall env tc).2).tool_call_id = some tc.id)
    ∧ (∀ (env : ToolEnv Args) (st : LoopState) (chunks : List StreamChunk),
       (procChunks ⟨"", []⟩ chunks).1.records ≠ [] →
       (stepTurn env st (ProviderTurn.stream chunks)).2.1.chat_messages
         = st.chat_messages
             ++ assistantMsg (procChunks ⟨"", []⟩ chunks).1
               :: ((procChunks ⟨"", []⟩ chunks).1.records.map
                     (fun r => (executeCall env r).2))
       ∧ (stepTurn env st (ProviderTurn.stream chunks)).1
         = (procChunks ⟨"", []⟩ chunks).2
             ++ (procChunks ⟨"", []⟩ chunks).1.records.map Event.tool_call
             ++ (((procChunks ⟨"", []⟩ chunks).1.records.map
                   (fun r => (executeCall env r).1)).flatten)
       ∧ (stepTurn env st (ProviderTurn.stream chunks)).2.2 = Outcome.next) := by
  refine ⟨toolResultsOf_executeCall_ids, executeCall_msg_fields, ?_⟩
  intro env st chunks hne
  rw [stepTurn_stream_nonempty env st chunks hne]
  refine ⟨?_, rfl, rfl⟩
  simp [appendMsg, appendMsgs]

/-- C8 witness: the step-level clause evaluated at a concrete turn carrying
one tool-call delta. -/
theorem C8_witness :
    (stepTurn sampleEnv (initState sampleEnv [sampleUser])
        (ProviderTurn.stream [⟨none, [sampleDeltaAt2]⟩])).2.2 = Outcome.next :=
  (C8_sequential_execution.2.2 sampleEnv (initState sampleEnv [sampleUser])
    [⟨none, [sampleDeltaAt2]⟩] (by decide)).2.2

/-- Unfolding equation for `chat_stream`. -/
theorem chat_stream_eq (env : ToolEnv Args) (history : List Message)
    (turns : List ProviderTurn) :
    chat_stream env history turns
      = match runTurns env (initState env history) turns with
        | (evs, st', RunEnd.completed) =>
          (evs ++ [Event.full_response st'.new_messages], st', RunEnd.completed)
        | r => r := rfl

/-- C1 counterexample: on a run whose single assistant turn carries no tool
calls, `chat_stream` does not emit exactly one FinalResponse event — the
`yield` before the `break` (line 184) and the `yield` after the loop
(line 277) both fire. -/
theorem C1_counterexample :
    (fullResponses (chat_stream sampleEnv [sampleUser] sampleTextTurns).1).length ≠ 1 := by
  decide

/-- C1 (amended): a run whose final assistant turn carries no tool calls
emits exactly **two** FinalResponse events (the payload is yielded once at
the termination check of line 184 and once more after the loop at line
277); both list every message appended since the run began, the last event
of the run is one of them, and no further provider request occurs
afterwards. -/
theorem C1_two_final_responses {Args : Type} (env : ToolEnv Args)
    (hist : List Message) (turns : List ProviderTurn)
    (h : (chat_stream env hist turns).2.2 = RunEnd.completed) :
    fullResponses (chat_stream env hist turns).1
      = [(chat_stream env hist turns).2.1.new_messages,
         (chat_stream env hist turns).2.1.new_messages]
    ∧ (chat_stream env hist turns).1.getLast?
      = some (Event.full_response (chat_stream env hist turns).2.1.new_messages)
    ∧ ∀ extra, chat_stream env hist (turns ++ extra) = chat_stream env hist turns := by
  rcases hr : runTurns env (initState env hist) turns with ⟨evs, st', e⟩
  cases e with
  | fatal =>
    have : chat_stream env hist turns = (evs, st', RunEnd.fatal) := by
      rw [chat_stream_eq, hr]
    rw [this] at h
    exact absurd h (by simp)
  | outOfTurns =>
    have : chat_stream env hist turns = (evs, st', RunEnd.outOfTurns) := by
      rw [chat_stream_eq, hr]
    rw [this] at h
    exact absurd h (by simp)
  | completed =>
    have hre : (runTurns env (initState env hist) turns).2.2 = RunEnd.completed := by
      rw [hr]
    obtain ⟨r1, r2, r3⟩ := runTurns_completed env (initState env hist) turns hre
    rw [hr] at r1 r2
    have hcs : chat_stream env hist turns
        = (evs ++ [Event.full_response st'.new_messages], st', RunEnd.completed) := by
      rw [chat_stream_eq, hr]
    refine ⟨?_, ?_, ?_⟩
    · rw [hcs]
      show fullResponses (evs ++ [Event.full_response st'.new_messages])
        = [st'.new_messages, st'.new_messages]
      rw [fullResponses_append]
      rw [show fullResponses evs = [st'.new_messages] from r1]
      rfl
    · rw [hcs]
      show (evs ++ [Event.full_response st'.new_messages]).getLast?
        = some (Event.full_response st'.new_messages)
      exact List.getLast?_concat evs
    · intro extra
      rw [chat_stream_eq, chat_stream_eq, r3 extra]

/-- C1 witness: the amended statement evaluated at a concrete one-turn run
with no tool calls. -/
theorem C1_witness :
    fullResponses (chat_stream sampleEnv [sampleUser] sampleTextTurns).1
      = [(chat_stream sampleEnv [sampleUser] sampleTextTurns).2.1.new_messages,
         (chat_stream sampleEnv [sampleUser] sampleTextTurns).2.1.new_messages]
    ∧ (chat_stream sampleEnv [sampleUser] sampleTextTurns).1.getLast?
      = some (Event.full_response
          (chat_stream sampleEnv [sampleUser] sampleTextTurns).2.1.new_messages) :=
  ⟨(C1_two_final_responses sampleEnv [sampleUser] sampleTextTurns (by decide)).1,
   (C1_two_final_responses sampleEnv [sampleUser] sampleTextTurns (by decide)).2.1⟩

/-- C7: a provider failure during the request or stream consumption yields
exactly one Error event and terminates the run, never consuming the turns
after it; and every terminating run ends with a sentinel event: the last
event is a FinalResponse on success and an Error event on fatal failure. -/
theorem C7_fatal_provider_failure {Args : Type} :
    (∀ (env : ToolEnv Args) (st : LoopState) (e : PyExn) (rest : List ProviderTurn),
       runTurns env st (ProviderTurn.failure e :: rest)
         = ([Event.error (apiErrMsg e)], st, RunEnd.fatal))
    ∧ (∀ (env : ToolEnv Args) (hist : List Message) (turns : List ProviderTurn),
       (chat_stream env hist turns).2.2 = RunEnd.fatal →
       ((chat_stream env hist turns).1.getLast?.map isErrorEvent) = some true)
    ∧ (∀ (env : ToolEnv Args) (hist : List Message) (turns : List ProviderTurn),
       (chat_stream env hist turns).2.2 = RunEnd.completed →
       ((chat_stream env hist turns).1.getLast?.map isFullResponseEvent) = some true) := by
  refine ⟨?_, ?_, ?_⟩
  · intro env st e rest
    simp [runTurns, stepTurn_failure]
  · intro env hist turns h
    rcases hr : runTurns env (initState env hist) turns with ⟨evs, st', e⟩
    cases e with
    | completed =>
      have : chat_stream env hist turns
          = (evs ++ [Event.full_response st'.new_messages], st', RunEnd.completed) := by
        rw [chat_stream_eq, hr]
      rw [this] at h
      exact absurd h (by simp)
    | outOfTurns =>
      have : chat_stream env hist turns = (evs, st', RunEnd.outOfTurns) := by
        rw [chat_stream_eq, hr]
      rw [this] at h
      exact absurd h (by simp)
    | fatal =>
      have hcs : chat_stream env hist turns = (evs, st', RunEnd.fatal) := by
        rw [chat_stream_eq, hr]
      have hf := runTurns_fatal_getLast env (initState env hist) turns (by rw [hr])
      rw [hr] at hf
      rw [hcs]
      exact hf
  · intro env hist turns h
    rcases hr : runTurns env (initState env hist) turns with ⟨evs, st', e⟩
    cases e with
    | fatal =>
      have : chat_stream env hist turns = (evs, st', RunEnd.fatal) := by
        rw [chat_stream_eq, hr]
      rw [this] at h
      exact absurd h (by simp)
    | outOfTurns =>
      have : chat_stream env hist turns = (evs, st', RunEnd.outOfTurns) := by
        rw [chat_stream_eq, hr]
      rw [this] at h
      exact absurd h (by simp)
    | completed =>
      have hcs : chat_stream env hist turns
          = (evs ++ [Event.full_response st'.new_messages], st', RunEnd.completed) := by
        rw [chat_stream_eq, hr]
      rw [hcs]
      show ((evs ++ [Event.full_response st'.new_messages]).getLast?.map
        isFullResponseEvent) = some true
      rw [List.getLast?_concat]
      rfl

/-- C7 witness: the fatal-failure clause evaluated at a concrete one-turn
run whose provider request raises. -/
theorem C7_witness :
    ((chat_stream sampleEnv [sampleUser]
        [ProviderTurn.failure ⟨"Exception", "boom"⟩]).1.getLast?.map isErrorEvent)
      = some true :=
  C7_fatal_provider_failure.2.1 sampleEnv [sampleUser]
    [ProviderTurn.failure ⟨"Exception", "boom"⟩] (by decide)

/-- C10: running `chat_stream` leaves the caller's `chat_history` list
unchanged — the loop copies it on entry and appends the system prompt,
assistant messages and tool messages only to the copy (`chat_messages`)
and to `new_messages`. -/
theorem C10_chat_history_preserved {Args : Type} (env : ToolEnv Args)
    (hist : List Message) (turns : List ProviderTurn) :
    (chat_stream env hist turns).2.1.chat_history = hist := by
  have hin : (initState env hist).chat_history = hist := rfl
  have h := chat_history_runTurns env (initState env hist) turns
  rcases hr : runTurns env (initState env hist) turns with ⟨evs, st', e⟩
  rw [hr] at h
  have hst : st'.chat_history = hist := by
    rw [show (evs, st', e).2.1.chat_history = st'.chat_history from rfl] at h
    rw [h, hin]
  cases e with
  | completed =>
    have : chat_stream env hist turns
        = (evs ++ [Event.full_response st'.new_messages], st', RunEnd.completed) := by
      rw [chat_stream_eq, hr]
    rw [this]
    exact hst
  | fatal =>
    have : chat_stream env hist turns = (evs, st', RunEnd.fatal) := by
      rw [chat_stream_eq, hr]
    rw [this]
    exact hst
  | outOfTurns =>
    have : chat_stream env hist turns = (evs, st', RunEnd.outOfTurns) := by
      rw [chat_stream_eq, hr]
    rw [this]
    exact hst

end Researcher
